import Mathlib

/-!
Verification of the schematic-embedding plugin core
(`pelican_kicad_embed`): the syntax detector `KICAD_PATTERN`, the
Markdown Grammar-A preprocessor, the liquid-tag handler, the path
resolver `resolve_schematic_path`, the template function
`kicad_schematic`, and the injection guard
`inject_kicanvas_script_into_html`.

All text is modelled as `List Char`.  Python's `\s` is modelled by the
six ASCII whitespace characters, and `re.IGNORECASE` by ASCII
lower-casing, which covers every input appearing in the plugin's
documented behaviour.  Filesystem probes (`Path.exists`) and symlink
resolution (`Path.resolve`) are oracle parameters `fs : String → Bool`
and `resolveFn : String → String`, since they read external state.
-/

/-- ASCII whitespace, the characters matched by the regex class `\s`
for ASCII input. -/
def isWS (c : Char) : Bool :=
  c = ' ' || c = '\t' || c = '\n' || c = '\r' || c = '\x0b' || c = '\x0c'

/-- ASCII lower-casing, modelling `re.IGNORECASE` matching. -/
def lowerChar (c : Char) : Char :=
  if 'A' ≤ c ∧ c ≤ 'Z' then Char.ofNat (c.toNat + 32) else c

/-- A quote character, the class `["\']` in the source regexes. -/
def isQuote (c : Char) : Bool := c = '"' || c = '\''

/-- Skip a (maximal) run of whitespace: the deterministic reading of
`\s*` when the following token cannot begin with whitespace. -/
def skipWS (s : List Char) : List Char := s.dropWhile isWS

/-- Match a fixed lower-case word `t` case-insensitively as a prefix of
`s`, returning the rest of `s` on success. -/
def stripCI : List Char → List Char → Option (List Char)
  | [], s => some s
  | _ :: _, [] => none
  | t :: ts, c :: cs => if lowerChar c = t then stripCI ts cs else none

/-- `l₁` occurs at the start of `l₂` (decidable-equality version used
throughout instead of `BEq`). -/
def isPre : List Char → List Char → Bool
  | [], _ => true
  | _ :: _, [] => false
  | a :: as, b :: bs => if a = b then isPre as bs else false

/-- The keyword of grammars A and C. -/
def kwKicadSchematic : List Char := "kicad_schematic".data

/-- The keyword of grammar B (directive marker body). -/
def kwKicadDirective : List Char := "kicad-schematic::".data

/-- First alternative of `KICAD_PATTERN`: `\{\{\s*kicad_schematic\s*\(`
matched at the head of `s`. -/
def matchOpenA (s : List Char) : Bool :=
  match s with
  | c1 :: c2 :: r =>
    if c1 = '{' ∧ c2 = '{' then
      match stripCI kwKicadSchematic (skipWS r) with
      | some r1 =>
        match skipWS r1 with
        | c :: _ => c = '('
        | [] => false
      | none => false
    else false
  | _ => false

/-- Second alternative of `KICAD_PATTERN`: `\.\.\s+kicad-schematic::`
matched at the head of `s`. -/
def matchOpenB (s : List Char) : Bool :=
  match s with
  | c1 :: c2 :: c :: r =>
    if c1 = '.' ∧ c2 = '.' then isWS c && (stripCI kwKicadDirective (skipWS r)).isSome
    else false
  | _ => false

/-- Third alternative of `KICAD_PATTERN`: `\{%\s*kicad_schematic\s+`
matched at the head of `s`. -/
def matchOpenC (s : List Char) : Bool :=
  match s with
  | c1 :: c2 :: r =>
    if c1 = '{' ∧ c2 = '%' then
      match stripCI kwKicadSchematic (skipWS r) with
      | some r1 =>
        match r1 with
        | c :: _ => isWS c
        | [] => false
      | none => false
    else false
  | _ => false

/-- Any alternative of `KICAD_PATTERN` matched at the head of `s`. -/
def matchOpenAt (s : List Char) : Bool := matchOpenA s || matchOpenB s || matchOpenC s

/-- `re.search` of `KICAD_PATTERN`: try every start position. -/
def kicadSearchAux : List Char → Bool
  | [] => matchOpenAt []
  | s@(_ :: t) => matchOpenAt s || kicadSearchAux t

/-- Model of `KICAD_PATTERN.search(text)` being non-`None`
(`src/pelican_kicad_embed/__init__.py`, lines 36-41). -/
def KICAD_PATTERN_search (s : String) : Bool := kicadSearchAux s.data

/-- A run of whitespace characters. -/
def WSRun (w : List Char) : Prop := ∀ c ∈ w, isWS c = true

/-- `w` spells the fixed lower-case word `t` case-insensitively. -/
def CIWord (t w : List Char) : Prop := w.map lowerChar = t

/-- Spec-side description of the Grammar-A opening token: the opening
brace-brace, optional whitespace, the call keyword (case-insensitive),
optional whitespace, and the opening parenthesis. -/
def SpecOpenerA (t : List Char) : Prop :=
  ∃ w1 kw w2, WSRun w1 ∧ CIWord kwKicadSchematic kw ∧ WSRun w2 ∧
    t = '{' :: '{' :: (w1 ++ kw ++ w2 ++ ['('])

/-- Spec-side description of the Grammar-B opening token: the directive
marker `..`, at least one whitespace character, and the directive name
with its double colon (case-insensitive). -/
def SpecOpenerB (t : List Char) : Prop :=
  ∃ c w kw, isWS c = true ∧ WSRun w ∧ CIWord kwKicadDirective kw ∧
    t = '.' :: '.' :: c :: (w ++ kw)

/-- Spec-side description of the Grammar-C opening token: the tag-open
brace-percent, optional whitespace, the tag keyword (case-insensitive),
followed by a whitespace character. -/
def SpecOpenerC (t : List Char) : Prop :=
  ∃ w kw c, WSRun w ∧ CIWord kwKicadSchematic kw ∧ isWS c = true ∧
    t = '{' :: '%' :: (w ++ kw ++ [c])

/-- Spec-side statement that `s` contains an opening token of one of
the three embed grammars. -/
def ContainsOpener (s : List Char) : Prop :=
  ∃ pre mid post, s = pre ++ mid ++ post ∧
    (SpecOpenerA mid ∨ SpecOpenerB mid ∨ SpecOpenerC mid)

/-!
Section: Grammar A: the Markdown preprocessor (`src/pelican_kicad_embed/md_ext.py`)

`KiCadSchematicPreprocessor.PATTERN` is

```
\{\{\s*kicad_schematic\s*\(\s*
(?:["'](?P<quoted_filename>[^"']+)["']|(?P<unquoted_filename>\S+))\s*
(?:,\s*style\s*=\s*["'](?P<style>[^"']*)["'])?
(?:,\s*controls\s*=\s*["'](?P<controls>[^"']*)["'])?
\s*\)\s*\}\}
```

with `re.IGNORECASE`.  The model below resolves the regex engine's
nondeterminism exactly as Python's backtracking engine does: `[^"']+`
and `[^"']*` are maximal-munch (a shorter match would leave a
non-quote character where a quote is required), every `\s*` is
maximal-munch (the following token never begins with whitespace), the
quoted alternative is tried before the bare one, a matched optional
clause is never profitably dropped (the text it consumed begins with a
comma which no later pattern element accepts), and `\S+` backtracks
from the longest candidate downwards.
-/

/-- The captures of one `PATTERN` match.  `filename` is the single
filename group that matched (the quoted group never captures the empty
string, so `quoted or unquoted` in `_replace_match` selects exactly the
group that participated). -/
structure AMatch where
  filename : List Char
  style : Option (List Char)
  controls : Option (List Char)
  deriving DecidableEq, Repr

/-- One optional clause `(?:,\s*KW\s*=\s*["']([^"']*)["'])?` of
`PATTERN`, tried at the current position; `kw` is the lower-cased
keyword. -/
def tryClause (kw : List Char) (s : List Char) : Option (List Char × List Char) :=
  match s with
  | c0 :: r =>
    if c0 = ',' then
      match stripCI kw (skipWS r) with
      | some r2 =>
        match skipWS r2 with
        | e :: r3 =>
          if e = '=' then
            match skipWS r3 with
            | q :: r4 =>
              if isQuote q then
                let v := r4.takeWhile (fun c => !isQuote c)
                match r4.dropWhile (fun c => !isQuote c) with
                | q2 :: r5 => if isQuote q2 then some (v, r5) else none
                | [] => none
              else none
            | [] => none
          else none
        | [] => none
      | none => none
    else none
  | [] => none

/-- The tail of `PATTERN` after the filename alternative:
`\s*(style clause)?(controls clause)?\s*\)\s*\}\}`. -/
def matchTail (s : List Char) : Option (Option (List Char) × Option (List Char) × List Char) :=
  let s1 := skipWS s
  let p1 : Option (List Char) × List Char :=
    match tryClause ("style".data) s1 with
    | some (v, r) => (some v, r)
    | none => (none, s1)
  let p2 : Option (List Char) × List Char :=
    match tryClause ("controls".data) p1.2 with
    | some (v, r) => (some v, r)
    | none => (none, p1.2)
  match skipWS p2.2 with
  | cp :: s5 =>
    if cp = ')' then
      match skipWS s5 with
      | b1 :: b2 :: s6 => if b1 = '}' ∧ b2 = '}' then some (p1.1, p2.1, s6) else none
      | _ => none
    else none
  | [] => none

/-- The `\S+` bare-filename alternative: Python's engine tries the
longest candidate first and backtracks one character at a time. -/
def tryLengths (chunk after : List Char) : Nat → Option (AMatch × List Char)
  | 0 => none
  | Nat.succ m =>
    match matchTail (chunk.drop (Nat.succ m) ++ after) with
    | some (st, co, rest) => some (⟨chunk.take (Nat.succ m), st, co⟩, rest)
    | none => tryLengths chunk after m

/-- The quoted-filename alternative `["'](?P<quoted_filename>[^"']+)["']`
followed by the pattern tail, tried at `r3` (the position just after
`\(\s*`). -/
def matchAQuoted (r3 : List Char) : Option (AMatch × List Char) :=
  match r3 with
  | q :: r4 =>
    if isQuote q then
      let fn := r4.takeWhile (fun c => !isQuote c)
      if fn.isEmpty then none
      else
        match r4.dropWhile (fun c => !isQuote c) with
        | q2 :: r5 =>
          if isQuote q2 then
            match matchTail r5 with
            | some (st, co, rest) => some (⟨fn, st, co⟩, rest)
            | none => none
          else none
        | [] => none
    else none
  | [] => none

/-- The filename alternation and pattern tail, tried at `r3` (just
after `\(\s*`): the quoted alternative first, then the backtracking
bare alternative. -/
def matchAAlt (r3 : List Char) : Option (AMatch × List Char) :=
  match matchAQuoted r3 with
  | some res => some res
  | none =>
    tryLengths (r3.takeWhile (fun c => !isWS c)) (r3.dropWhile (fun c => !isWS c))
      (r3.takeWhile (fun c => !isWS c)).length

/-- The part of `matchAFrom` after the literal `{{`. -/
def matchAOpenRest (r0 : List Char) : Option (AMatch × List Char) :=
  match stripCI kwKicadSchematic (skipWS r0) with
  | some r1 =>
    match skipWS r1 with
    | cp :: r2 => if cp = '(' then matchAAlt (skipWS r2) else none
    | [] => none
  | none => none

/-- `PATTERN` matched at the head of `s`; on success returns the
captures and the text after the match. -/
def matchAFrom (s : List Char) : Option (AMatch × List Char) :=
  match s with
  | c1 :: c2 :: r0 => if c1 = '{' ∧ c2 = '{' then matchAOpenRest r0 else none
  | _ => none

/-- Shared attribute-building logic of `_replace_match` (md_ext.py) and
`kicad_schematic_tag` (liquid_tag.py): `src` always, `controls` and
`style` only when non-empty. -/
def renderEmbed (filename style controls : List Char) : List Char :=
  "<kicanvas-embed src=\"/static/schematics/".data ++ filename ++ "\"".data ++
    (if controls.isEmpty then [] else " controls=\"".data ++ controls ++ "\"".data) ++
    (if style.isEmpty then [] else " style=\"".data ++ style ++ "\"".data) ++
    "></kicanvas-embed>".data

/-- `KiCadSchematicPreprocessor._replace_match`: build the element from
the match's groups, absent groups becoming the empty string. -/
def mdReplaceMatch (m : AMatch) : List Char :=
  renderEmbed m.filename (m.style.getD []) (m.controls.getD [])

/-- `PATTERN.sub(self._replace_match, line)`: leftmost-first,
non-overlapping substitution.  `fuel` bounds the recursion; the
argument shrinks by at least one character per step, so
`fuel = line.length` suffices. -/
def subAFuel : Nat → List Char → List Char
  | 0, l => l
  | _ + 1, [] => []
  | fuel + 1, s@(c :: t) =>
    match matchAFrom s with
    | some (m, rest) => mdReplaceMatch m ++ subAFuel fuel rest
    | none => c :: subAFuel fuel t

/-- One line of `KiCadSchematicPreprocessor.run`. -/
def subA (l : List Char) : List Char := subAFuel l.length l

/-- `KiCadSchematicPreprocessor.run`: substitute every match on every
line. -/
def runLines (lines : List (List Char)) : List (List Char) := lines.map subA

/-- Does `PATTERN` match anywhere in `l`?  (`re.sub` rewrites something
iff this holds.) -/
def hasMatchA : List Char → Bool
  | [] => (matchAFrom []).isSome
  | s@(_ :: t) => (matchAFrom s).isSome || hasMatchA t

/-!
Section: Grammar C: the liquid-tag handler (`src/pelican_kicad_embed/liquid_tag.py`)
-/

/-- One position's attempt of `re.search(r'KW\s*=\s*["']([^"']*)["']', markup, re.IGNORECASE)`:
keyword, `=`, a quote, a maximal run of non-quote characters, a quote. -/
def matchKV (kw : List Char) (s : List Char) : Option (List Char) :=
  match stripCI kw s with
  | some r1 =>
    match skipWS r1 with
    | e :: r2 =>
      if e = '=' then
        match skipWS r2 with
        | q :: r3 =>
          if isQuote q then
            match r3.dropWhile (fun c => !isQuote c) with
            | q2 :: _ => if isQuote q2 then some (r3.takeWhile (fun c => !isQuote c)) else none
            | [] => none
          else none
        | [] => none
      else none
    | [] => none
  | none => none

/-- `re.search` for the key-value pattern: leftmost match wins. -/
def searchKV (kw : List Char) : List Char → Option (List Char)
  | [] => matchKV kw []
  | s@(_ :: t) =>
    match matchKV kw s with
    | some v => some v
    | none => searchKV kw t

/-- `kicad_schematic_tag(preprocessor, tag, markup)`
(`src/pelican_kicad_embed/liquid_tag.py`, lines 19-54): extract the
first non-whitespace run as the filename (diagnostic comment if there
is none), then search for `style` and `controls` key-value pairs
anywhere in the markup. -/
def kicad_schematic_tag (markup : List Char) : List Char :=
  let t := markup.dropWhile isWS
  match t with
  | [] => "<!-- Invalid kicad_schematic syntax: ".data ++ markup ++ " -->".data
  | _ :: _ =>
    let filename := t.takeWhile (fun c => !isWS c)
    let style := (searchKV ("style".data) markup).getD []
    let controls := (searchKV ("controls".data) markup).getD []
    renderEmbed filename style controls

/-!
Section: The path resolver (`resolve_schematic_path`, `__init__.py` lines 44-122)

Settings are the effective values of the `settings.get` calls; the
filesystem and `Path.resolve` are oracles.
-/

/-- Effective Pelican settings used by the plugin. -/
structure PelicanSettings where
  path : String := "content"
  output_path : String := "output"
  kicad_schematics_path : Option String := none
  kicanvas_use_cdn : Bool := false

/-- Python `Option`-string truthiness: `None` and `""` are falsy. -/
def truthyOpt : Option String → Bool
  | none => false
  | some s => s ≠ ""

/-- `s.startswith(pre)` (list-level model of `String.startsWith`). -/
def strStartsWith (s pre : String) : Bool := isPre pre.data s.data

/-- `pathlib` division `a / b`: an absolute right operand wins, empty
components are dropped, otherwise the parts are joined with `/`. -/
def pathJoin (a b : String) : String :=
  if strStartsWith b "/" then b
  else if b = "" then a
  else if a = "" then b
  else a ++ "/" ++ b

/-- Python `url.rstrip("/")`: remove every trailing slash. -/
def rstripSlash (s : String) : String :=
  ⟨(s.data.reverse.dropWhile (fun c => c = '/')).reverse⟩

/-- `Path(p).parent` for a file path: the part before the last slash,
`"."` when there is none, `"/"` for a file directly under the root. -/
def parentDir (s : String) : String :=
  let r := s.data.reverse.dropWhile (fun c => c ≠ '/')
  if r = [] then "."
  else if r = ['/'] then "/"
  else ⟨(r.drop 1).reverse⟩

/-- `p.relative_to(root)` on already-resolved paths: defined exactly
when `p` lies under `root`. -/
def relativeTo (root p : String) : Option String :=
  if p = root then some "."
  else if strStartsWith p (root ++ "/") then some (p.drop (root.length + 1))
  else none

/-- `str(rel_path).replace("\\", "/")`. -/
def backslashToSlash (s : String) : String :=
  s.map (fun c => if c = '\\' then '/' else c)

/-- `resolve_schematic_path(filename, content_source_path, article_url)`
(`__init__.py` lines 44-122).  `fs` answers `Path.exists`, `resolveFn`
is `Path.resolve` (realpath); both are oracles for the ambient
filesystem state. -/
def resolve_schematic_path (settings : PelicanSettings) (fs : String → Bool)
    (resolveFn : String → String) (filename : String)
    (content_source_path : Option String) (article_url : Option String) : String :=
  if strStartsWith filename "/" || strStartsWith filename "http" then filename
  else
    -- Strategy 3 (KICAD_SCHEMATICS_PATH) and the final pass-through
    let strat45 : String :=
      match settings.kicad_schematics_path with
      | some kicad_path =>
        if kicad_path ≠ "" ∧ fs (pathJoin (pathJoin settings.path kicad_path) filename) then
          "/" ++ kicad_path ++ "/" ++ filename
        else filename
      | none => filename
    -- Strategy 2 (relative to the content source file, guarded by content root)
    let strat3 : String :=
      match content_source_path with
      | some csp =>
        if csp = "" then strat45
        else
          let schematic_path := pathJoin (parentDir csp) filename
          if fs schematic_path then
            match relativeTo (resolveFn settings.path) (resolveFn schematic_path) with
            | some rel => "/" ++ backslashToSlash rel
            | none => strat45
          else strat45
      | none => strat45
    -- Strategy 1 (article URL, probing output dir then source dir)
    match article_url, content_source_path with
    | some url, some csp =>
      if url = "" ∨ csp = "" then strat3
      else
        let url_path := rstripSlash url
        if fs (pathJoin (pathJoin settings.output_path url_path) filename) then
          "/" ++ url_path ++ "/" ++ filename
        else if fs (pathJoin (parentDir csp) filename) then
          "/" ++ url_path ++ "/" ++ filename
        else strat3
    | _, _ => strat3

/-!
Section: The template function (`kicad_schematic`, `__init__.py` lines 250-313)
-/

/-- An article or page object as seen through `hasattr`: `none` means
the attribute is absent. -/
structure ArticleLike where
  source_path : Option String := none
  url : Option String := none

/-- The Jinja2 context as read by `kicad_schematic`: for the two
dunder keys, the outer `Option` is key presence and the inner is the
stored value (the patch stores `None` for a missing article URL). -/
structure JinjaCtx where
  source_path_entry : Option (Option String) := none
  article_url_entry : Option (Option String) := none
  article : Option ArticleLike := none
  page : Option ArticleLike := none

/-- The context-priority logic of `kicad_schematic`: take the dunder
keys injected by the jinja2content patch first, then the article's
`source_path`/`url` when the current value is falsy, else the page's
(only when the page has a `source_path`). -/
def ctxExtract (context : JinjaCtx) : Option String × Option String :=
  let csp0 : Option String := (context.source_path_entry.getD none)
  let aurl0 : Option String := (context.article_url_entry.getD none)
  match context.article with
  | some a =>
    (if a.source_path.isSome ∧ ¬ truthyOpt csp0 = true then a.source_path else csp0,
     if a.url.isSome ∧ ¬ truthyOpt aurl0 = true then a.url else aurl0)
  | none =>
    match context.page with
    | some p =>
      if p.source_path.isSome then
        (if ¬ truthyOpt csp0 = true then p.source_path else csp0,
         if p.url.isSome ∧ ¬ truthyOpt aurl0 = true then p.url else aurl0)
      else (csp0, aurl0)
    | none => (csp0, aurl0)

/-- `kicad_schematic(context, filename, style="", controls="")`: apply
the documented defaults to empty options, extract the source path and
article URL from the context by priority, resolve, and render with both
attributes always present. -/
def kicad_schematic (settings : PelicanSettings) (fs : String → Bool)
    (resolveFn : String → String) (context : JinjaCtx)
    (filename : String) (style : String := "") (controls : String := "") : String :=
  let style := if style = "" then "width: 100%; height: 600px;" else style
  let controls := if controls = "" then "all" else controls
  let pair := ctxExtract context
  let resolved := resolve_schematic_path settings fs resolveFn filename pair.1 pair.2
  "<kicanvas-embed src=\"" ++ resolved ++ "\" controls=\"" ++ controls ++
    "\" style=\"" ++ style ++ "\"></kicanvas-embed>"

/-!
Section: The injection guard (`inject_kicanvas_script_into_html`,
`__init__.py` lines 146-199)
-/

/-- The per-document state the guard reads and writes: the detector
flag, the publication status, the one-shot injection sentinel
(attribute presence in the source, a Bool here), and the rendered body
(`none` models a missing or `None` `_content`). -/
structure ContentState where
  kicanvas_embed : Bool
  status : String
  injected : Bool
  content : Option (List Char)
  deriving DecidableEq

/-- The loader URL chosen from configuration. -/
def kicanvasUrl (settings : PelicanSettings) : List Char :=
  if settings.kicanvas_use_cdn then "https://kicanvas.org/kicanvas/kicanvas.js".data
  else "/static/js/kicanvas.js".data

/-- The injected script tag (ends with a newline). -/
def scriptTag (settings : PelicanSettings) : List Char :=
  ("<script type=\"module\" src=\"".data ++ kicanvasUrl settings ++ "\"></script>".data)
    ++ ['\n']

/-- Python `needle in hay` on strings. -/
def containsSub (hay needle : List Char) : Bool :=
  if isPre needle hay then true
  else
    match hay with
    | [] => false
    | _ :: t => containsSub t needle

/-- Python `hay.find(needle)`: index of the leftmost occurrence. -/
def findSub (hay needle : List Char) : Option Nat :=
  if isPre needle hay then some 0
  else
    match hay with
    | [] => none
    | _ :: t => (findSub t needle).map (· + 1)

/-- Python `hay.replace(needle, repl, 1)`: replace the leftmost
occurrence only. -/
def replaceFirst (hay needle repl : List Char) : List Char :=
  if isPre needle hay then repl ++ hay.drop needle.length
  else
    match hay with
    | [] => []
    | c :: t => c :: replaceFirst t needle repl

/-- Number of (possibly overlapping) start positions at which `needle`
occurs in `hay`. -/
def countOcc (needle hay : List Char) : Nat :=
  (if isPre needle hay then 1 else 0) +
    match hay with
    | [] => 0
    | _ :: t => countOcc needle t

/-- The body transformation of `inject_kicanvas_script_into_html` once
all guards have passed on a non-empty body: skip if the loader URL is
already present, else insert the script tag before `</head>`, else
after the end of the first `<body` tag, else at the very front. -/
def injectBody (settings : PelicanSettings) (html : List Char) : List Char :=
  let url := kicanvasUrl settings
  let tag := scriptTag settings
  if containsSub html url then html
  else if containsSub html ("</head>".data) then
    replaceFirst html ("</head>".data) (tag ++ "</head>".data)
  else if containsSub html ("<body".data) then
    let i := (findSub html ("<body".data)).getD 0
    let pos : Nat :=
      match findSub (html.drop i) (">".data) with
      | some j => i + j + 1
      | none => 0
    html.take pos ++ '\n' :: tag ++ html.drop pos
  else tag ++ html

/-- `inject_kicanvas_script_into_html(content)`: no-op unless flagged,
published and not yet injected; then set the one-shot sentinel, and if
the body is present and non-empty, rewrite it with `injectBody`.
(When the loader URL is already present `injectBody` returns the body
unchanged, matching the source's early return.) -/
def inject_kicanvas_script_into_html (settings : PelicanSettings) (c : ContentState) :
    ContentState :=
  if ¬ c.kicanvas_embed = true then c
  else if c.status ≠ "published" then c
  else if c.injected then c
  else
    match c.content with
    | none => { c with injected := true }
    | some html =>
      if html.isEmpty then { c with injected := true }
      else { c with injected := true, content := some (injectBody settings html) }

/-- A canonical Grammar-A occurrence with a double-quoted filename and
no options. -/
def canonQuotedA (f : List Char) : List Char :=
  "\x7b\x7b kicad_schematic(\"".data ++ f ++ "\") \x7d\x7d".data

/-- A canonical Grammar-A occurrence with a double-quoted filename and
explicitly empty `style` and `controls` options. -/
def canonEmptyOptsA (f : List Char) : List Char :=
  "\x7b\x7b kicad_schematic(\"".data ++ f ++ "\", style=\"\", controls=\"\") \x7d\x7d".data

/-- The unterminated Grammar-A candidate of the spec's robustness
example. -/
def c4line : List Char := "\x7b\x7b kicad_schematic(\"x.kicad_sch\"".data

/-- A flagged published document whose body already holds the local
loader URL twice. -/
def c1Counter : ContentState :=
  ⟨true, "published", false, some ("/static/js/kicanvas.js/static/js/kicanvas.js".data)⟩

/-- A flagged published document whose body is the bare fragment
`<body` (a `<body` occurrence with no closing `>`). -/
def c2Counter : ContentState :=
  ⟨true, "published", false, some ("<body".data)⟩

/-!
Section: Helper lemmas: whitespace runs, case-insensitive words
-/

theorem takeWhile_all (p : Char → Bool) (w : List Char) (d : Char) (r : List Char)
    (hw : ∀ c ∈ w, p c = true) (hd : p d = false) :
    (w ++ d :: r).takeWhile p = w := by
  induction w with
  | nil => simp [List.takeWhile_cons, hd]
  | cons a w ih =>
    have ha : p a = true := hw a (List.mem_cons_self a w)
    simp only [List.cons_append, List.takeWhile_cons, ha, if_true]
    rw [ih (fun c hc => hw c (List.mem_cons_of_mem a hc))]

theorem dropWhile_all (p : Char → Bool) (w : List Char) (d : Char) (r : List Char)
    (hw : ∀ c ∈ w, p c = true) (hd : p d = false) :
    (w ++ d :: r).dropWhile p = d :: r := by
  induction w with
  | nil => simp [List.dropWhile_cons, hd]
  | cons a w ih =>
    have ha : p a = true := hw a (List.mem_cons_self a w)
    simp only [List.cons_append, List.dropWhile_cons, ha, if_true]
    exact ih (fun c hc => hw c (List.mem_cons_of_mem a hc))

theorem skipWS_run_append (w : List Char) (d : Char) (r : List Char)
    (hw : WSRun w) (hd : isWS d = false) : skipWS (w ++ d :: r) = d :: r :=
  dropWhile_all isWS w d r hw hd

theorem stripCI_complete (w r : List Char) :
    stripCI (w.map lowerChar) (w ++ r) = some r := by
  induction w with
  | nil => rfl
  | cons a w ih => simp [stripCI, ih]

theorem stripCI_of_ciword (t w r : List Char) (h : CIWord t w) :
    stripCI t (w ++ r) = some r := by
  rw [← h]; exact stripCI_complete w r

theorem stripCI_sound (t : List Char) : ∀ s r : List Char,
    stripCI t s = some r → ∃ w, s = w ++ r ∧ CIWord t w := by
  induction t with
  | nil =>
    intro s r h
    have hsr : s = r := by simpa [stripCI] using h
    exact ⟨[], by simp [hsr], rfl⟩
  | cons a ts ih =>
    intro s r h
    match s with
    | [] => simp [stripCI] at h
    | c :: cs =>
      by_cases hc : lowerChar c = a
      · have h' : stripCI ts cs = some r := by simpa [stripCI, hc] using h
        obtain ⟨w, hw1, hw2⟩ := ih cs r h'
        refine ⟨c :: w, by simp [hw1], ?_⟩
        show lowerChar c :: List.map lowerChar w = a :: ts
        rw [hc, show List.map lowerChar w = ts from hw2]
      · simp [stripCI, hc] at h

theorem isWS_lower_fix (c : Char) (h : isWS c = true) : lowerChar c = c := by
  simp only [isWS, Bool.or_eq_true, decide_eq_true_eq] at h
  rcases h with ((((h | h) | h) | h) | h) | h <;> subst h <;> decide

theorem not_ws_of_lower (c d : Char) (hd : isWS d = false) (h : lowerChar c = d) :
    isWS c = false := by
  cases hws : isWS c with
  | false => rfl
  | true =>
    rw [isWS_lower_fix c hws] at h
    rw [h] at hws
    rw [hws] at hd
    exact absurd hd (by simp)

theorem ciword_cons (a : Char) (ts w : List Char) (h : CIWord (a :: ts) w) :
    ∃ k ks, w = k :: ks ∧ lowerChar k = a ∧ CIWord ts ks := by
  match w with
  | [] => simp [CIWord] at h
  | k :: ks =>
    simp only [CIWord, List.map_cons, List.cons.injEq] at h
    exact ⟨k, ks, rfl, h.1, h.2⟩

theorem wsrun_takeWhile (l : List Char) : WSRun (l.takeWhile isWS) :=
  fun _ hc => List.mem_takeWhile_imp hc

theorem skipWS_decomp (l : List Char) :
    l = l.takeWhile isWS ++ skipWS l ∧ WSRun (l.takeWhile isWS) :=
  ⟨(List.takeWhile_append_dropWhile isWS l).symm, wsrun_takeWhile l⟩


theorem skipWS_split (l : List Char) : ∃ w, WSRun w ∧ l = w ++ skipWS l :=
  ⟨_, wsrun_takeWhile l, (List.takeWhile_append_dropWhile isWS l).symm⟩

/-!
Section: The detector agrees with the spec-side opener description
-/

theorem matchOpenA_sound (s : List Char) (h : matchOpenA s = true) :
    ∃ mid post, s = mid ++ post ∧ SpecOpenerA mid := by
  match s with
  | [] => simp [matchOpenA] at h
  | [_] => simp [matchOpenA] at h
  | c1 :: c2 :: r =>
    simp only [matchOpenA] at h
    split at h
    case isFalse => simp at h
    case isTrue hc =>
      obtain ⟨hc1, hc2⟩ := hc
      subst hc1; subst hc2
      cases hstrip : stripCI kwKicadSchematic (skipWS r) with
      | none => simp [hstrip] at h
      | some r1 =>
        simp only [hstrip] at h
        cases hsk : skipWS r1 with
        | nil => simp [hsk] at h
        | cons cp rest =>
          simp only [hsk, decide_eq_true_eq] at h
          subst h
          obtain ⟨w1, hw1, hr⟩ := skipWS_split r
          obtain ⟨kw, hkw, hciw⟩ := stripCI_sound _ _ _ hstrip
          obtain ⟨w2, hw2, hr1⟩ := skipWS_split r1
          rw [hkw] at hr
          rw [hsk] at hr1
          rw [hr1] at hr
          refine ⟨'{' :: '{' :: (w1 ++ kw ++ w2 ++ ['(']), rest, ?_, ?_⟩
          · rw [hr]
            simp [List.append_assoc]
          · exact ⟨w1, kw, w2, hw1, hciw, hw2, rfl⟩

theorem matchOpenA_complete (mid post : List Char) (h : SpecOpenerA mid) :
    matchOpenA (mid ++ post) = true := by
  obtain ⟨w1, kw, w2, hw1, hciw, hw2, rfl⟩ := h
  have hkwdef : kwKicadSchematic = 'k' :: "icad_schematic".data := by decide
  obtain ⟨k, ks, rfl, hk, hks⟩ := ciword_cons 'k' ("icad_schematic".data) kw (by
    rw [← hkwdef]; exact hciw)
  have hkws : isWS k = false := not_ws_of_lower k 'k' (by decide) hk
  have e1 : ('{' :: '{' :: (w1 ++ (k :: ks) ++ w2 ++ ['('])) ++ post
      = '{' :: '{' :: (w1 ++ (k :: (ks ++ (w2 ++ '(' :: post)))) := by
    simp [List.append_assoc]
  rw [e1]
  have e2 : skipWS (w1 ++ (k :: (ks ++ (w2 ++ '(' :: post)))) = (k :: ks) ++ (w2 ++ '(' :: post) :=
    skipWS_run_append w1 k _ hw1 hkws
  have e3 : stripCI kwKicadSchematic (k :: (ks ++ (w2 ++ '(' :: post)))
      = some (w2 ++ '(' :: post) := by
    have h3 := stripCI_of_ciword kwKicadSchematic (k :: ks) (w2 ++ '(' :: post) hciw
    rwa [List.cons_append] at h3
  have e4 : skipWS (w2 ++ '(' :: post) = '(' :: post :=
    skipWS_run_append w2 '(' post hw2 (by decide)
  simp [matchOpenA, e2, e3, e4]

theorem matchOpenB_sound (s : List Char) (h : matchOpenB s = true) :
    ∃ mid post, s = mid ++ post ∧ SpecOpenerB mid := by
  match s with
  | [] => simp [matchOpenB] at h
  | [_] => simp [matchOpenB] at h
  | [_, _] => simp [matchOpenB] at h
  | c1 :: c2 :: c :: r =>
    simp only [matchOpenB] at h
    split at h
    case isFalse => simp at h
    case isTrue hc =>
      obtain ⟨hc1, hc2⟩ := hc
      subst hc1; subst hc2
      simp only [Bool.and_eq_true, Option.isSome_iff_exists] at h
      obtain ⟨hcws, r1, hstrip⟩ := h
      obtain ⟨w, hw, hr⟩ := skipWS_split r
      obtain ⟨kw, hkw, hciw⟩ := stripCI_sound _ _ _ hstrip
      rw [hkw] at hr
      refine ⟨'.' :: '.' :: c :: (w ++ kw), r1, ?_, ?_⟩
      · rw [hr]
        simp [List.append_assoc]
      · exact ⟨c, w, kw, hcws, hw, hciw, rfl⟩

theorem matchOpenB_complete (mid post : List Char) (h : SpecOpenerB mid) :
    matchOpenB (mid ++ post) = true := by
  obtain ⟨c, w, kw, hc, hw, hciw, rfl⟩ := h
  have hkwdef : kwKicadDirective = 'k' :: "icad-schematic::".data := by decide
  obtain ⟨k, ks, rfl, hk, hks⟩ := ciword_cons 'k' ("icad-schematic::".data) kw (by
    rw [← hkwdef]; exact hciw)
  have hkws : isWS k = false := not_ws_of_lower k 'k' (by decide) hk
  have e1 : ('.' :: '.' :: c :: (w ++ k :: ks)) ++ post
      = '.' :: '.' :: c :: (w ++ (k :: (ks ++ post))) := by
    simp [List.append_assoc]
  rw [e1]
  have e2 : skipWS (w ++ (k :: (ks ++ post))) = (k :: ks) ++ post :=
    skipWS_run_append w k _ hw hkws
  have e3 : stripCI kwKicadDirective (k :: (ks ++ post)) = some post := by
    have h3 := stripCI_of_ciword kwKicadDirective (k :: ks) post hciw
    rwa [List.cons_append] at h3
  simp [matchOpenB, e2, e3, hc]

theorem matchOpenC_sound (s : List Char) (h : matchOpenC s = true) :
    ∃ mid post, s = mid ++ post ∧ SpecOpenerC mid := by
  match s with
  | [] => simp [matchOpenC] at h
  | [_] => simp [matchOpenC] at h
  | c1 :: c2 :: r =>
    simp only [matchOpenC] at h
    split at h
    case isFalse => simp at h
    case isTrue hc =>
      obtain ⟨hc1, hc2⟩ := hc
      subst hc1; subst hc2
      cases hstrip : stripCI kwKicadSchematic (skipWS r) with
      | none => simp [hstrip] at h
      | some r1 =>
        simp only [hstrip] at h
        cases r1 with
        | nil => simp at h
        | cons c rest =>
          obtain ⟨w1, hw1, hr⟩ := skipWS_split r
          obtain ⟨kw, hkw, hciw⟩ := stripCI_sound _ _ _ hstrip
          rw [hkw] at hr
          refine ⟨'{' :: '%' :: (w1 ++ kw ++ [c]), rest, ?_, ?_⟩
          · rw [hr]
            simp [List.append_assoc]
          · exact ⟨w1, kw, c, hw1, hciw, h, rfl⟩

theorem matchOpenC_complete (mid post : List Char) (h : SpecOpenerC mid) :
    matchOpenC (mid ++ post) = true := by
  obtain ⟨w, kw, c, hw, hciw, hc, rfl⟩ := h
  have hkwdef : kwKicadSchematic = 'k' :: "icad_schematic".data := by decide
  obtain ⟨k, ks, rfl, hk, hks⟩ := ciword_cons 'k' ("icad_schematic".data) kw (by
    rw [← hkwdef]; exact hciw)
  have hkws : isWS k = false := not_ws_of_lower k 'k' (by decide) hk
  have e1 : ('{' :: '%' :: (w ++ k :: ks ++ [c])) ++ post
      = '{' :: '%' :: (w ++ (k :: (ks ++ (c :: post)))) := by
    simp [List.append_assoc]
  rw [e1]
  have e2 : skipWS (w ++ (k :: (ks ++ (c :: post)))) = (k :: ks) ++ (c :: post) :=
    skipWS_run_append w k _ hw hkws
  have e3 : stripCI kwKicadSchematic (k :: (ks ++ (c :: post))) = some (c :: post) := by
    have h3 := stripCI_of_ciword kwKicadSchematic (k :: ks) (c :: post) hciw
    rwa [List.cons_append] at h3
  simp [matchOpenC, e2, e3, hc]

theorem kicadSearchAux_iff (l : List Char) :
    kicadSearchAux l = true ↔ ∃ pre rest, l = pre ++ rest ∧ matchOpenAt rest = true := by
  induction l with
  | nil =>
    constructor
    · intro h; exact ⟨[], [], rfl, h⟩
    · rintro ⟨pre, rest, he, h⟩
      obtain ⟨h1, h2⟩ := List.append_eq_nil.mp he.symm
      subst h1; subst h2; exact h
  | cons c t ih =>
    constructor
    · intro h
      have h' : matchOpenAt (c :: t) = true ∨ kicadSearchAux t = true := by
        simpa [kicadSearchAux, Bool.or_eq_true] using h
      rcases h' with h' | h'
      · exact ⟨[], c :: t, rfl, h'⟩
      · obtain ⟨pre, rest, he, hm⟩ := ih.mp h'
        exact ⟨c :: pre, rest, by simp [he], hm⟩
    · rintro ⟨pre, rest, he, hm⟩
      cases pre with
      | nil =>
        simp only [List.nil_append] at he
        subst he
        simp [kicadSearchAux, hm]
      | cons p ps =>
        simp only [List.cons_append, List.cons.injEq] at he
        obtain ⟨-, he2⟩ := he
        have : kicadSearchAux t = true := ih.mpr ⟨ps, rest, he2, hm⟩
        simp [kicadSearchAux, this]

theorem matchOpenAt_cases (s : List Char) (h : matchOpenAt s = true) :
    matchOpenA s = true ∨ matchOpenB s = true ∨ matchOpenC s = true := by
  have h' : (matchOpenA s = true ∨ matchOpenB s = true) ∨ matchOpenC s = true := by
    simpa [matchOpenAt, Bool.or_eq_true] using h
  tauto

theorem KICAD_PATTERN_search_iff (s : String) :
    KICAD_PATTERN_search s = true ↔ ContainsOpener s.data := by
  rw [KICAD_PATTERN_search, kicadSearchAux_iff]
  constructor
  · rintro ⟨pre, rest, he, hm⟩
    rcases matchOpenAt_cases rest hm with h' | h' | h'
    · obtain ⟨mid, post, he2, hs⟩ := matchOpenA_sound rest h'
      exact ⟨pre, mid, post, by rw [he, he2, List.append_assoc], Or.inl hs⟩
    · obtain ⟨mid, post, he2, hs⟩ := matchOpenB_sound rest h'
      exact ⟨pre, mid, post, by rw [he, he2, List.append_assoc], Or.inr (Or.inl hs)⟩
    · obtain ⟨mid, post, he2, hs⟩ := matchOpenC_sound rest h'
      exact ⟨pre, mid, post, by rw [he, he2, List.append_assoc], Or.inr (Or.inr hs)⟩
  · rintro ⟨pre, mid, post, he, hs⟩
    refine ⟨pre, mid ++ post, by rw [he, List.append_assoc], ?_⟩
    rcases hs with hs | hs | hs
    · simp [matchOpenAt, matchOpenA_complete mid post hs]
    · simp [matchOpenAt, matchOpenB_complete mid post hs]
    · simp [matchOpenAt, matchOpenC_complete mid post hs]

/-- Claim C3: `KICAD_PATTERN` matches exactly the strings containing an
opening token of one of the three grammars (case-insensitively); plain
prose mentioning KiCad does not match, and each opener matches even
with a malformed remainder. -/
theorem claim_C3 :
    (∀ s : String, KICAD_PATTERN_search s = true ↔ ContainsOpener s.data) ∧
    KICAD_PATTERN_search "This is just normal text about KiCad" = false ∧
    KICAD_PATTERN_search "\x7b\x7b kicad_schematic( garbage" = true ∧
    KICAD_PATTERN_search "text .. kicad-schematic:: " = true ∧
    KICAD_PATTERN_search "\x7b% kicad_schematic oops" = true ∧
    KICAD_PATTERN_search "\x7b\x7b KICAD_SCHEMATIC (" = true :=
  ⟨KICAD_PATTERN_search_iff, by decide, by decide, by decide, by decide, by decide⟩

/-!
Section: Grammar-A substitution: no match means identity
-/

theorem hasMatchA_cons (c : Char) (t : List Char) (h : hasMatchA (c :: t) = false) :
    matchAFrom (c :: t) = none ∧ hasMatchA t = false := by
  have h' : (matchAFrom (c :: t)).isSome = false ∧ hasMatchA t = false := by
    simpa [hasMatchA, Bool.or_eq_false_iff] using h
  exact ⟨Option.not_isSome_iff_eq_none.mp (by simp [h'.1]), h'.2⟩

theorem subAFuel_of_noMatch (l : List Char) : ∀ fuel : Nat, hasMatchA l = false →
    l.length ≤ fuel → subAFuel fuel l = l := by
  induction l with
  | nil => intro fuel _ _; cases fuel <;> rfl
  | cons c t ih =>
    intro fuel h hlen
    obtain ⟨hm, ht⟩ := hasMatchA_cons c t h
    match fuel with
    | 0 => simp at hlen
    | f + 1 =>
      show (match matchAFrom (c :: t) with
        | some (m, rest) => mdReplaceMatch m ++ subAFuel f rest
        | none => c :: subAFuel f t) = c :: t
      rw [hm]
      have : subAFuel f t = t := ih f ht (by simpa using Nat.succ_le_succ_iff.mp hlen)
      rw [this]

theorem subA_of_noMatch (l : List Char) (h : hasMatchA l = false) : subA l = l :=
  subAFuel_of_noMatch l l.length h (Nat.le_refl _)

/-- Claim C4: a line on which `PATTERN` never matches — in particular
the unterminated candidate `\x7b\x7b kicad_schematic("x.kicad_sch"` —
is returned by `run` byte-for-byte unchanged (and the preprocessor is a
total function, so no input raises). -/
theorem claim_C4 :
    (∀ line : List Char, hasMatchA line = false → subA line = line) ∧
    runLines [c4line] = [c4line] ∧ matchOpenA c4line = true := by
  refine ⟨subA_of_noMatch, ?_, by decide⟩
  have h : hasMatchA c4line = false := by decide
  simp [runLines, subA_of_noMatch c4line h]

/-- Witness for the hypothesis of `claim_C4`: a concrete matchless
line passes through unchanged. -/
theorem claim_C4_witness : subA ("no embeds here".data) = "no embeds here".data :=
  claim_C4.1 ("no embeds here".data) (by decide)

/-!
Section: Occurrence counting
-/

theorem isPre_iff (n : List Char) : ∀ l : List Char, isPre n l = true ↔ ∃ t, l = n ++ t := by
  induction n with
  | nil => intro l; simp [isPre]
  | cons a as ih =>
    intro l
    match l with
    | [] =>
      simp only [isPre]
      constructor
      · intro h; cases h
      · rintro ⟨t, ht⟩; cases ht
    | b :: bs =>
      by_cases hab : a = b
      · subst hab
        have e : isPre (a :: as) (a :: bs) = isPre as bs := by simp [isPre]
        rw [e, ih bs]
        constructor
        · rintro ⟨t, ht⟩; exact ⟨t, by simp [ht]⟩
        · rintro ⟨t, ht⟩
          simp only [List.cons_append, List.cons.injEq] at ht
          exact ⟨t, ht.2⟩
      · have e : isPre (a :: as) (b :: bs) = false := by simp [isPre, hab]
        rw [e]
        constructor
        · intro h; cases h
        · rintro ⟨t, ht⟩
          simp only [List.cons_append, List.cons.injEq] at ht
          exact absurd ht.1.symm hab

theorem isPre_append_of (n X Z : List Char) (h : isPre n X = true) :
    isPre n (X ++ Z) = true := by
  obtain ⟨t, rfl⟩ := (isPre_iff n X).mp h
  exact (isPre_iff n _).mpr ⟨t ++ Z, by simp [List.append_assoc]⟩

theorem isPre_refl (n : List Char) : isPre n n = true :=
  (isPre_iff n n).mpr ⟨[], by simp⟩

theorem isPre_split (c : Char) : ∀ n : List Char, c ∉ n → ∀ X Y : List Char,
    isPre n (X ++ c :: Y) = true → isPre n X = true := by
  intro n
  induction n with
  | nil => intro _ X _ _; simp [isPre]
  | cons a as ih =>
    intro hc X Y h
    match X with
    | [] =>
      exfalso
      simp only [List.nil_append, isPre] at h
      by_cases hac : a = c
      · exact hc (by rw [hac]; exact List.mem_cons_self c as)
      · rw [if_neg hac] at h; cases h
    | b :: bs =>
      simp only [List.cons_append, isPre] at h ⊢
      by_cases hab : a = b
      · rw [if_pos hab] at h ⊢
        exact ih (fun hm => hc (List.mem_cons_of_mem a hm)) bs Y h
      · rw [if_neg hab] at h; cases h

theorem countOcc_nil (n : List Char) (hn : n ≠ []) : countOcc n [] = 0 := by
  have : isPre n [] = false := by
    cases n with
    | nil => exact absurd rfl hn
    | cons a as => rfl
  simp [countOcc, this]

theorem countOcc_cons_not_mem (n : List Char) (c : Char) (Y : List Char)
    (hn : n ≠ []) (hc : c ∉ n) :
    countOcc n (c :: Y) = countOcc n Y := by
  have hp : isPre n (c :: Y) = false := by
    cases hp : isPre n (c :: Y) with
    | false => rfl
    | true =>
      obtain ⟨t, ht⟩ := (isPre_iff n _).mp hp
      match n, ht with
      | [], _ => exact absurd rfl hn
      | a :: as, ht =>
        simp only [List.cons_append, List.cons.injEq] at ht
        exact absurd (ht.1 ▸ List.mem_cons_self a as) hc
  show (if isPre n (c :: Y) then 1 else 0) + countOcc n Y = countOcc n Y
  simp [hp]

theorem countOcc_append_cons (n : List Char) (c : Char) (Y : List Char)
    (hn : n ≠ []) (hc : c ∉ n) : ∀ X : List Char,
    countOcc n (X ++ c :: Y) = countOcc n X + countOcc n (c :: Y) := by
  intro X
  induction X with
  | nil => simp [countOcc_nil n hn]
  | cons x X' ih =>
    have hind : isPre n (x :: (X' ++ c :: Y)) = isPre n (x :: X') := by
      cases h1 : isPre n (x :: X') with
      | true =>
        have := isPre_append_of n (x :: X') (c :: Y) h1
        simpa using this
      | false =>
        cases h2 : isPre n (x :: (X' ++ c :: Y)) with
        | false => rfl
        | true =>
          have h3 : isPre n ((x :: X') ++ c :: Y) = true := by simpa using h2
          rw [isPre_split c n hc (x :: X') Y h3] at h1; cases h1
    show (if isPre n (x :: (X' ++ c :: Y)) then 1 else 0) + countOcc n (X' ++ c :: Y)
        = ((if isPre n (x :: X') then 1 else 0) + countOcc n X') + countOcc n (c :: Y)
    rw [hind, ih, Nat.add_assoc]

theorem countOcc_append_single (n : List Char) (Y' : List Char) (c : Char) (Z : List Char)
    (hn : n ≠ []) (hc : c ∉ n) :
    countOcc n ((Y' ++ [c]) ++ Z) = countOcc n (Y' ++ [c]) + countOcc n Z := by
  have e : (Y' ++ [c]) ++ Z = Y' ++ c :: Z := by simp
  have h1 : countOcc n (Y' ++ c :: Z) = countOcc n Y' + countOcc n (c :: Z) :=
    countOcc_append_cons n c Z hn hc Y'
  have h2 : countOcc n (c :: Z) = countOcc n Z := countOcc_cons_not_mem n c Z hn hc
  have h3 : countOcc n (Y' ++ [c]) = countOcc n Y' := by
    have e2 : Y' ++ [c] = Y' ++ c :: ([] : List Char) := rfl
    rw [e2, countOcc_append_cons n c [] hn hc Y', countOcc_cons_not_mem n c [] hn hc,
      countOcc_nil n hn]
    omega
  rw [e, h1, h2, h3]

theorem countOcc_le_append_right (n Z : List Char) : ∀ X : List Char,
    countOcc n Z ≤ countOcc n (X ++ Z) := by
  intro X
  induction X with
  | nil => simp
  | cons x X' ih =>
    show countOcc n Z ≤ (if isPre n (x :: X' ++ Z) then 1 else 0) + countOcc n (X' ++ Z)
    exact ih.trans (Nat.le_add_left _ _)

theorem countOcc_le_append_left (n : List Char) (hn : n ≠ []) : ∀ X Z : List Char,
    countOcc n X ≤ countOcc n (X ++ Z) := by
  intro X Z
  induction X with
  | nil => simp [countOcc_nil n hn]
  | cons x X' ih =>
    show (if isPre n (x :: X') then 1 else 0) + countOcc n X'
        ≤ (if isPre n (x :: (X' ++ Z)) then 1 else 0) + countOcc n (X' ++ Z)
    have hle : (if isPre n (x :: X') then (1:Nat) else 0)
        ≤ (if isPre n (x :: (X' ++ Z)) then (1:Nat) else 0) := by
      cases h1 : isPre n (x :: X') with
      | false => simp
      | true =>
        have h2 : isPre n (x :: (X' ++ Z)) = true := by
          have := isPre_append_of n (x :: X') Z h1
          simpa using this
        rw [h2]
    exact Nat.add_le_add hle ih

theorem containsSub_nil_needle (hay : List Char) : containsSub hay [] = true := by
  cases hay <;> rfl

theorem containsSub_iff_pos (n : List Char) : ∀ hay : List Char,
    containsSub hay n = true ↔ 0 < countOcc n hay := by
  intro hay
  induction hay with
  | nil =>
    show (if isPre n [] then true else false) = true ↔ 0 < (if isPre n [] then 1 else 0) + 0
    cases h : isPre n [] <;> simp
  | cons c t ih =>
    show (if isPre n (c :: t) then true else containsSub t n) = true
        ↔ 0 < (if isPre n (c :: t) then 1 else 0) + countOcc n t
    cases h : isPre n (c :: t) with
    | true => simp
    | false => simpa using ih

theorem countOcc_zero_of_not_contains (n hay : List Char)
    (h : containsSub hay n = false) : countOcc n hay = 0 := by
  by_contra hne
  have hpos : 0 < countOcc n hay := Nat.pos_of_ne_zero hne
  have h2 := (containsSub_iff_pos n hay).mpr hpos
  rw [h] at h2; cases h2

theorem containsSub_append_right (n : List Char) : ∀ X Y : List Char,
    containsSub X n = true → containsSub (X ++ Y) n = true := by
  intro X Y h
  induction X with
  | nil =>
    have hp : isPre n [] = true := by
      have h' : (if isPre n [] then true else false) = true := h
      cases hq : isPre n [] with
      | true => rfl
      | false => rw [hq] at h'; cases h'
    have hnil : n = [] := by
      obtain ⟨t, ht⟩ := (isPre_iff n []).mp hp
      cases n with
      | nil => rfl
      | cons a as => cases ht
    subst hnil
    simpa using containsSub_nil_needle Y
  | cons c t ih =>
    show (if isPre n (c :: (t ++ Y)) then true else containsSub (t ++ Y) n) = true
    have h' : (if isPre n (c :: t) then true else containsSub t n) = true := h
    cases hp : isPre n (c :: t) with
    | true =>
      have h2 : isPre n (c :: (t ++ Y)) = true := by
        have := isPre_append_of n (c :: t) Y hp
        simpa using this
      rw [h2]; rfl
    | false =>
      rw [hp] at h'
      have h3 := ih h'
      cases hq : isPre n (c :: (t ++ Y)) with
      | true => rfl
      | false => simpa using h3

theorem containsSub_append_left (n Y : List Char) (h : containsSub Y n = true) :
    ∀ X : List Char, containsSub (X ++ Y) n = true := by
  intro X
  induction X with
  | nil => simpa using h
  | cons c t ih =>
    show (if isPre n (c :: (t ++ Y)) then true else containsSub (t ++ Y) n) = true
    cases hq : isPre n (c :: (t ++ Y)) with
    | true => rfl
    | false => simpa using ih

/-!
Section: Injection-guard helper lemmas
-/

theorem replaceFirst_decomp (n repl : List Char) (hn : n ≠ []) : ∀ hay : List Char,
    containsSub hay n = true →
    ∃ A B, hay = A ++ n ++ B ∧ replaceFirst hay n repl = A ++ repl ++ B := by
  intro hay
  induction hay with
  | nil =>
    intro h
    exfalso
    have hp : isPre n [] = false := by
      cases n with
      | nil => exact absurd rfl hn
      | cons a as => rfl
    have h' : (if isPre n [] then true else false) = true := h
    rw [hp] at h'; cases h'
  | cons c t ih =>
    intro h
    cases hp : isPre n (c :: t) with
    | true =>
      obtain ⟨t', ht'⟩ := (isPre_iff n (c :: t)).mp hp
      refine ⟨[], t', by simpa using ht', ?_⟩
      show (if isPre n (c :: t) then repl ++ (c :: t).drop n.length
        else match c :: t with
          | [] => []
          | c :: t => c :: replaceFirst t n repl) = [] ++ repl ++ t'
      rw [hp, if_pos rfl, ht', List.drop_left]
      simp
    | false =>
      have h' : containsSub t n = true := by
        have h2 : (if isPre n (c :: t) then true else containsSub t n) = true := h
        rwa [hp, if_neg (by simp)] at h2
      obtain ⟨A, B, hAB, hrep⟩ := ih h'
      refine ⟨c :: A, B, by simp [hAB], ?_⟩
      show (if isPre n (c :: t) then repl ++ (c :: t).drop n.length
        else match c :: t with
          | [] => []
          | c :: t => c :: replaceFirst t n repl) = (c :: A) ++ repl ++ B
      rw [hp, if_neg (by simp)]
      simp [hrep]

theorem containsSub_of_findSub (n : List Char) : ∀ (hay : List Char) (i : Nat),
    findSub hay n = some i → containsSub hay n = true := by
  intro hay
  induction hay with
  | nil =>
    intro i h
    show (if isPre n [] then true else false) = true
    cases hp : isPre n [] with
    | true => rfl
    | false =>
      exfalso
      have h' : (if isPre n [] then some 0 else (none : Option Nat).map (· + 1)) = some i := h
      rw [hp] at h'
      simp at h'
  | cons c t ih =>
    intro i h
    show (if isPre n (c :: t) then true else containsSub t n) = true
    cases hp : isPre n (c :: t) with
    | true => rfl
    | false =>
      have h' : (findSub t n).map (· + 1) = some i := by
        have h2 : (if isPre n (c :: t) then some 0 else (findSub t n).map (· + 1)) = some i := h
        rwa [hp, if_neg (by simp)] at h2
      obtain ⟨j, hj, -⟩ := Option.map_eq_some'.mp h'
      simpa using ih j hj

theorem inject_run (s : PelicanSettings) (c : ContentState) (html : List Char)
    (h1 : c.kicanvas_embed = true) (h2 : c.status = "published") (h3 : c.injected = false)
    (h4 : c.content = some html) (h5 : html ≠ []) :
    inject_kicanvas_script_into_html s c
      = { c with injected := true, content := some (injectBody s html) } := by
  have hne : html.isEmpty = false := by
    cases html with
    | nil => exact absurd rfl h5
    | cons a t => rfl
  simp [inject_kicanvas_script_into_html, h1, h2, h3, h4, hne]

theorem inject_injected (s : PelicanSettings) (c : ContentState) (h : c.injected = true) :
    inject_kicanvas_script_into_html s c = c := by
  by_cases hA : c.kicanvas_embed = true
  · by_cases hB : c.status = "published"
    · simp [inject_kicanvas_script_into_html, hA, hB, h]
    · simp [inject_kicanvas_script_into_html, hA, hB]
  · simp [inject_kicanvas_script_into_html, hA]

theorem kicanvasUrl_ne_nil (s : PelicanSettings) : kicanvasUrl s ≠ [] := by
  unfold kicanvasUrl
  split <;> decide

theorem lt_not_mem_url (s : PelicanSettings) : '<' ∉ kicanvasUrl s := by
  unfold kicanvasUrl
  split <;> decide

theorem nl_not_mem_url (s : PelicanSettings) : '\n' ∉ kicanvasUrl s := by
  unfold kicanvasUrl
  split <;> decide

theorem scriptTag_eq (s : PelicanSettings) :
    scriptTag s = ("<script type=\"module\" src=\"".data ++ kicanvasUrl s
      ++ "\"></script>".data) ++ ['\n'] := rfl

theorem scriptTag_head (s : PelicanSettings) :
    scriptTag s = '<' :: ("script type=\"module\" src=\"".data ++ kicanvasUrl s
      ++ "\"></script>".data ++ ['\n']) := by
  rw [scriptTag_eq]
  have e : "<script type=\"module\" src=\"".data
      = '<' :: "script type=\"module\" src=\"".data := by decide
  rw [e]
  simp [List.append_assoc]

theorem countOcc_url_tag (s : PelicanSettings) :
    countOcc (kicanvasUrl s) (scriptTag s) = 1 := by
  cases h : s.kicanvas_use_cdn <;> simp [kicanvasUrl, scriptTag, h] <;> decide

theorem countOcc_url_nl_tag (s : PelicanSettings) :
    countOcc (kicanvasUrl s) ('\n' :: scriptTag s) = 1 := by
  cases h : s.kicanvas_use_cdn <;> simp [kicanvasUrl, scriptTag, h] <;> decide

theorem countOcc_insert_tag (n W : List Char) (hn : n ≠ [])
    (hW : countOcc n W = 1)
    (hWhead : ∃ c rest, W = c :: rest ∧ c ∉ n)
    (hWlast : ∃ Y c, W = Y ++ [c] ∧ c ∉ n) (X Z : List Char)
    (hX : countOcc n X = 0) (hZ : countOcc n Z = 0) :
    countOcc n (X ++ (W ++ Z)) = 1 := by
  obtain ⟨c0, rest, hWc, hc0⟩ := hWhead
  obtain ⟨Y, cl, hWl, hcl⟩ := hWlast
  have e1 : W ++ Z = c0 :: (rest ++ Z) := by rw [hWc]; simp
  have h1 : countOcc n (X ++ (W ++ Z)) = countOcc n X + countOcc n (W ++ Z) := by
    rw [e1, countOcc_append_cons n c0 (rest ++ Z) hn hc0 X, ← e1]
  have h2 : countOcc n (W ++ Z) = countOcc n W + countOcc n Z := by
    rw [hWl, countOcc_append_single n Y cl Z hn hcl, ← hWl]
  rw [h1, h2, hX, hW, hZ]

theorem injectBody_skip (s : PelicanSettings) (html : List Char)
    (h : containsSub html (kicanvasUrl s) = true) : injectBody s html = html := by
  simp [injectBody, h]

theorem injectBody_head (s : PelicanSettings) (html : List Char)
    (hurl : containsSub html (kicanvasUrl s) = false)
    (hhd : containsSub html ("</head>".data) = true) :
    injectBody s html
      = replaceFirst html ("</head>".data) (scriptTag s ++ "</head>".data) := by
  simp [injectBody, hurl, hhd]

theorem injectBody_bodyTag (s : PelicanSettings) (html : List Char)
    (hurl : containsSub html (kicanvasUrl s) = false)
    (hhd : containsSub html ("</head>".data) = false)
    (hbd : containsSub html ("<body".data) = true) :
    ∃ pos : Nat, injectBody s html
      = html.take pos ++ (('\n' :: scriptTag s) ++ html.drop pos) := by
  refine ⟨(match findSub (html.drop ((findSub html ("<body".data)).getD 0)) (">".data) with
    | some j => (findSub html ("<body".data)).getD 0 + j + 1
    | none => 0), ?_⟩
  simp [injectBody, hurl, hhd, hbd]

theorem injectBody_bodyTag_pos (s : PelicanSettings) (html : List Char) (i j : Nat)
    (hurl : containsSub html (kicanvasUrl s) = false)
    (hhd : containsSub html ("</head>".data) = false)
    (hbd : containsSub html ("<body".data) = true)
    (hi : findSub html ("<body".data) = some i)
    (hj : findSub (html.drop i) (">".data) = some j) :
    injectBody s html
      = html.take (i + j + 1) ++ '\n' :: scriptTag s ++ html.drop (i + j + 1) := by
  simp [injectBody, hurl, hhd, hbd, hi, hj]

theorem injectBody_bodyTag_none (s : PelicanSettings) (html : List Char) (i : Nat)
    (hurl : containsSub html (kicanvasUrl s) = false)
    (hhd : containsSub html ("</head>".data) = false)
    (hbd : containsSub html ("<body".data) = true)
    (hi : findSub html ("<body".data) = some i)
    (hj : findSub (html.drop i) (">".data) = none) :
    injectBody s html = '\n' :: (scriptTag s ++ html) := by
  simp [injectBody, hurl, hhd, hbd, hi, hj]

theorem injectBody_front (s : PelicanSettings) (html : List Char)
    (hurl : containsSub html (kicanvasUrl s) = false)
    (hhd : containsSub html ("</head>".data) = false)
    (hbd : containsSub html ("<body".data) = false) :
    injectBody s html = scriptTag s ++ html := by
  simp [injectBody, hurl, hhd, hbd]

/-- Claim C10: on a flagged, published, not-yet-injected document the
guard sets the one-shot sentinel before looking at the body, so a first
call on an empty or missing body only sets the flag, and every later
call — with any settings and any body, including a newly non-empty
one — leaves the document unchanged: the loader is never inserted. -/
theorem claim_C10 (s : PelicanSettings) (c : ContentState)
    (h1 : c.kicanvas_embed = true) (h2 : c.status = "published")
    (h3 : c.injected = false) (h4 : c.content = none ∨ c.content = some []) :
    inject_kicanvas_script_into_html s c = { c with injected := true } ∧
    ∀ (s2 : PelicanSettings) (nb : Option (List Char)),
      inject_kicanvas_script_into_html s2 { c with injected := true, content := nb }
        = { c with injected := true, content := nb } := by
  constructor
  · rcases h4 with h4 | h4 <;>
      simp [inject_kicanvas_script_into_html, h1, h2, h3, h4]
  · intro s2 nb
    exact inject_injected s2 _ rfl

/-- Witness for `claim_C10` at a concrete document: an empty-body first
call sets only the flag, and a second call on the later-filled body is
the identity. -/
theorem claim_C10_witness :
    inject_kicanvas_script_into_html {} ⟨true, "published", false, none⟩
        = ⟨true, "published", true, none⟩ ∧
    inject_kicanvas_script_into_html {} ⟨true, "published", true, some ("<p>x</p>".data)⟩
        = ⟨true, "published", true, some ("<p>x</p>".data)⟩ := by
  have h := claim_C10 {} ⟨true, "published", false, none⟩ rfl rfl rfl (Or.inl rfl)
  exact ⟨h.1, h.2 {} (some ("<p>x</p>".data))⟩

/-- Counterexample to claim C1 as stated: a flagged, published document
whose body already holds the loader URL twice still holds it twice
after two guard calls — the guard never removes pre-existing
references, so "exactly one occurrence" fails without an assumption on
the initial body. -/
theorem claim_C1_counterexample :
    countOcc (kicanvasUrl {})
      ((inject_kicanvas_script_into_html {}
        (inject_kicanvas_script_into_html {} c1Counter)).content.getD []) = 2 := by
  decide

/-- Claim C1 (amended): for a flagged, published, not-yet-injected
document with a non-empty body containing the loader URL at most once,
two guard calls yield a body with exactly one loader-URL occurrence,
and the second call changes nothing at all. -/
theorem claim_C1_amended (s : PelicanSettings) (c : ContentState) (html : List Char)
    (h1 : c.kicanvas_embed = true) (h2 : c.status = "published")
    (h3 : c.injected = false) (h4 : c.content = some html) (h5 : html ≠ [])
    (h6 : countOcc (kicanvasUrl s) html ≤ 1) :
    inject_kicanvas_script_into_html s (inject_kicanvas_script_into_html s c)
        = inject_kicanvas_script_into_html s c ∧
    ∃ out, (inject_kicanvas_script_into_html s c).content = some out ∧
      countOcc (kicanvasUrl s) out = 1 := by
  have hrun := inject_run s c html h1 h2 h3 h4 h5
  have hsecond : inject_kicanvas_script_into_html s
      (inject_kicanvas_script_into_html s c) = inject_kicanvas_script_into_html s c := by
    rw [hrun]
    exact inject_injected s _ rfl
  refine ⟨hsecond, injectBody s html, by rw [hrun], ?_⟩
  by_cases hc0 : containsSub html (kicanvasUrl s) = true
  · rw [injectBody_skip s html hc0]
    have hpos := (containsSub_iff_pos (kicanvasUrl s) html).mp hc0
    omega
  · have hc0' : containsSub html (kicanvasUrl s) = false := by
      cases hq : containsSub html (kicanvasUrl s) with
      | false => rfl
      | true => exact absurd hq hc0
    have hzero : countOcc (kicanvasUrl s) html = 0 :=
      countOcc_zero_of_not_contains _ _ hc0'
    have hWhead : ∃ c0 rest, scriptTag s = c0 :: rest ∧ c0 ∉ kicanvasUrl s :=
      ⟨'<', _, scriptTag_head s, lt_not_mem_url s⟩
    have hWlast : ∃ Y cl, scriptTag s = Y ++ [cl] ∧ cl ∉ kicanvasUrl s :=
      ⟨_, '\n', scriptTag_eq s, nl_not_mem_url s⟩
    by_cases hhd : containsSub html ("</head>".data) = true
    · obtain ⟨A, B, hAB, hout⟩ := replaceFirst_decomp ("</head>".data)
        (scriptTag s ++ "</head>".data) (by decide) html hhd
      have hbody : injectBody s html
          = A ++ (scriptTag s ++ ("</head>".data ++ B)) := by
        rw [injectBody_head s html hc0' hhd, hout]
        simp [List.append_assoc]
      have ehd : "</head>".data = '<' :: "/head>".data := by decide
      have ehtml : html = A ++ '<' :: ("/head>".data ++ B) := by
        rw [hAB, ehd]
        simp [List.append_assoc]
      have hsplit : countOcc (kicanvasUrl s) html
          = countOcc (kicanvasUrl s) A
            + countOcc (kicanvasUrl s) ('<' :: ("/head>".data ++ B)) := by
        rw [ehtml]
        exact countOcc_append_cons _ '<' _ (kicanvasUrl_ne_nil s) (lt_not_mem_url s) A
      have hA0 : countOcc (kicanvasUrl s) A = 0 := by omega
      have hZ0 : countOcc (kicanvasUrl s) ("</head>".data ++ B) = 0 := by
        rw [ehd]
        have h0 : countOcc (kicanvasUrl s) ('<' :: ("/head>".data ++ B)) = 0 := by omega
        simpa using h0
      rw [hbody]
      exact countOcc_insert_tag (kicanvasUrl s) (scriptTag s) (kicanvasUrl_ne_nil s)
        (countOcc_url_tag s) hWhead hWlast A ("</head>".data ++ B) hA0 hZ0
    · have hhd' : containsSub html ("</head>".data) = false := by
        cases hq : containsSub html ("</head>".data) with
        | false => rfl
        | true => exact absurd hq hhd
      have hWheadNl : ∃ c0 rest, '\n' :: scriptTag s = c0 :: rest ∧ c0 ∉ kicanvasUrl s :=
        ⟨'\n', scriptTag s, rfl, nl_not_mem_url s⟩
      have hWlastNl : ∃ Y cl, '\n' :: scriptTag s = Y ++ [cl] ∧ cl ∉ kicanvasUrl s := by
        refine ⟨'\n' :: ("<script type=\"module\" src=\"".data ++ kicanvasUrl s
          ++ "\"></script>".data), '\n', ?_, nl_not_mem_url s⟩
        rw [scriptTag_eq]
        simp
      by_cases hbd : containsSub html ("<body".data) = true
      · obtain ⟨pos, hbody⟩ := injectBody_bodyTag s html hc0' hhd' hbd
        have htd : html.take pos ++ html.drop pos = html := List.take_append_drop pos html
        have hX0 : countOcc (kicanvasUrl s) (html.take pos) = 0 := by
          have hle := countOcc_le_append_left (kicanvasUrl s) (kicanvasUrl_ne_nil s)
            (html.take pos) (html.drop pos)
          rw [htd] at hle
          omega
        have hZ0 : countOcc (kicanvasUrl s) (html.drop pos) = 0 := by
          have hle := countOcc_le_append_right (kicanvasUrl s) (html.drop pos) (html.take pos)
          rw [htd] at hle
          omega
        rw [hbody]
        exact countOcc_insert_tag (kicanvasUrl s) ('\n' :: scriptTag s)
          (kicanvasUrl_ne_nil s) (countOcc_url_nl_tag s) hWheadNl hWlastNl _ _ hX0 hZ0
      · have hbd' : containsSub html ("<body".data) = false := by
          cases hq : containsSub html ("<body".data) with
          | false => rfl
          | true => exact absurd hq hbd
        have hbody : injectBody s html = [] ++ (scriptTag s ++ html) := by
          rw [injectBody_front s html hc0' hhd' hbd']
          rfl
        rw [hbody]
        exact countOcc_insert_tag (kicanvasUrl s) (scriptTag s) (kicanvasUrl_ne_nil s)
          (countOcc_url_tag s) hWhead hWlast [] html
          (countOcc_nil _ (kicanvasUrl_ne_nil s)) hzero

/-- Witness for `claim_C1_amended` at a concrete document: injecting
twice into `<html><head></head></html>` leaves exactly one loader
occurrence and the second call is the identity. -/
theorem claim_C1_amended_witness :
    inject_kicanvas_script_into_html {}
        (inject_kicanvas_script_into_html {}
          ⟨true, "published", false, some ("<html><head></head></html>".data)⟩)
      = inject_kicanvas_script_into_html {}
          ⟨true, "published", false, some ("<html><head></head></html>".data)⟩ ∧
    ∃ out, (inject_kicanvas_script_into_html {}
        ⟨true, "published", false, some ("<html><head></head></html>".data)⟩).content
      = some out ∧ countOcc (kicanvasUrl {}) out = 1 :=
  claim_C1_amended {} ⟨true, "published", false, some ("<html><head></head></html>".data)⟩
    ("<html><head></head></html>".data) rfl rfl rfl rfl (by decide) (by decide)

theorem containsSub_self (l : List Char) : containsSub l l = true := by
  cases l with
  | nil => rfl
  | cons c t =>
    show (if isPre (c :: t) (c :: t) then true else containsSub t (c :: t)) = true
    rw [isPre_refl]
    rfl

theorem containsSub_tag_insert (n X Z W : List Char) (hW : containsSub W n = true) :
    containsSub (X ++ (W ++ Z)) n = true :=
  containsSub_append_left n (W ++ Z) (containsSub_append_right n W Z hW) X

/-- Counterexample to claim C2 as stated: on the published, flagged
fragment body `<body` (which contains `<body` but no `>`), the guard
prepends a newline and then the script tag, so the inserted tag is
neither after the end of an opening body tag (there is no `>` at or
after the `<body`) nor prepended to the whole body (the result starts
with a newline, not with the tag). -/
theorem claim_C2_counterexample :
    (inject_kicanvas_script_into_html {} c2Counter).content
        = some ('\n' :: (scriptTag {} ++ "<body".data)) ∧
    isPre (scriptTag {}) ('\n' :: (scriptTag {} ++ "<body".data)) = false ∧
    findSub ("<body".data) (">".data) = none :=
  ⟨by decide, by decide, by decide⟩

/-- Claim C2 (amended): whenever the guard inserts (flagged, published,
not injected, non-empty body without the loader URL), the script tag is
inserted immediately before a closing `</head>` marker if the body has
one; otherwise, if the body has `<body` with a `>` at or after it,
immediately after that `>` (preceded by a newline); if `<body` occurs
with no later `>`, the tag is prepended preceded by a newline; if
neither marker occurs, the tag is prepended exactly; and in every case
the loader is present somewhere in the result. -/
theorem claim_C2_amended (s : PelicanSettings) (c : ContentState) (html : List Char)
    (h1 : c.kicanvas_embed = true) (h2 : c.status = "published")
    (h3 : c.injected = false) (h4 : c.content = some html) (h5 : html ≠ [])
    (h6 : containsSub html (kicanvasUrl s) = false) :
    ∃ out, (inject_kicanvas_script_into_html s c).content = some out ∧
      containsSub out (scriptTag s) = true ∧
      (containsSub html ("</head>".data) = true →
        ∃ A B, html = A ++ "</head>".data ++ B ∧
          out = A ++ scriptTag s ++ "</head>".data ++ B) ∧
      (∀ i j : Nat, containsSub html ("</head>".data) = false →
        findSub html ("<body".data) = some i →
        findSub (html.drop i) (">".data) = some j →
        out = html.take (i + j + 1) ++ '\n' :: scriptTag s ++ html.drop (i + j + 1)) ∧
      (∀ i : Nat, containsSub html ("</head>".data) = false →
        findSub html ("<body".data) = some i →
        findSub (html.drop i) (">".data) = none →
        out = '\n' :: (scriptTag s ++ html)) ∧
      (containsSub html ("</head>".data) = false →
        containsSub html ("<body".data) = false →
        out = scriptTag s ++ html) := by
  have hrun := inject_run s c html h1 h2 h3 h4 h5
  refine ⟨injectBody s html, by rw [hrun], ?_, ?_, ?_, ?_, ?_⟩
  · -- the loader is present in every branch
    by_cases hhd : containsSub html ("</head>".data) = true
    · obtain ⟨A, B, hAB, hout⟩ := replaceFirst_decomp ("</head>".data)
        (scriptTag s ++ "</head>".data) (by decide) html hhd
      have hbody : injectBody s html
          = A ++ (scriptTag s ++ ("</head>".data ++ B)) := by
        rw [injectBody_head s html h6 hhd, hout]
        simp [List.append_assoc]
      rw [hbody]
      exact containsSub_tag_insert _ _ _ _ (containsSub_self _)
    · have hhd' : containsSub html ("</head>".data) = false := by
        cases hq : containsSub html ("</head>".data) with
        | false => rfl
        | true => exact absurd hq hhd
      by_cases hbd : containsSub html ("<body".data) = true
      · obtain ⟨pos, hbody⟩ := injectBody_bodyTag s html h6 hhd' hbd
        have e : html.take pos ++ (('\n' :: scriptTag s) ++ html.drop pos)
            = (html.take pos ++ ['\n']) ++ (scriptTag s ++ html.drop pos) := by
          simp
        rw [hbody, e]
        exact containsSub_tag_insert _ _ _ _ (containsSub_self _)
      · have hbd' : containsSub html ("<body".data) = false := by
          cases hq : containsSub html ("<body".data) with
          | false => rfl
          | true => exact absurd hq hbd
        have hbody : injectBody s html = [] ++ (scriptTag s ++ html) := by
          rw [injectBody_front s html h6 hhd' hbd']
          rfl
        rw [hbody]
        exact containsSub_tag_insert _ _ _ _ (containsSub_self _)
  · intro hhd
    obtain ⟨A, B, hAB, hout⟩ := replaceFirst_decomp ("</head>".data)
      (scriptTag s ++ "</head>".data) (by decide) html hhd
    refine ⟨A, B, hAB, ?_⟩
    rw [injectBody_head s html h6 hhd, hout]
    simp [List.append_assoc]
  · intro i j hhd hi hj
    have hbd : containsSub html ("<body".data) = true :=
      containsSub_of_findSub ("<body".data) html i hi
    exact injectBody_bodyTag_pos s html i j h6 hhd hbd hi hj
  · intro i hhd hi hj
    have hbd : containsSub html ("<body".data) = true :=
      containsSub_of_findSub ("<body".data) html i hi
    exact injectBody_bodyTag_none s html i h6 hhd hbd hi hj
  · intro hhd hbd
    exact injectBody_front s html h6 hhd hbd

/-- Witness for `claim_C2_amended` at a concrete document with a
`</head>` marker. -/
theorem claim_C2_amended_witness :
    ∃ out, (inject_kicanvas_script_into_html {}
        ⟨true, "published", false, some ("<head></head>".data)⟩).content = some out ∧
      containsSub out (scriptTag {}) = true ∧
      (containsSub ("<head></head>".data) ("</head>".data) = true →
        ∃ A B, "<head></head>".data = A ++ "</head>".data ++ B ∧
          out = A ++ scriptTag {} ++ "</head>".data ++ B) ∧
      (∀ i j : Nat, containsSub ("<head></head>".data) ("</head>".data) = false →
        findSub ("<head></head>".data) ("<body".data) = some i →
        findSub (("<head></head>".data).drop i) (">".data) = some j →
        out = ("<head></head>".data).take (i + j + 1) ++ '\n' :: scriptTag {}
          ++ ("<head></head>".data).drop (i + j + 1)) ∧
      (∀ i : Nat, containsSub ("<head></head>".data) ("</head>".data) = false →
        findSub ("<head></head>".data) ("<body".data) = some i →
        findSub (("<head></head>".data).drop i) (">".data) = none →
        out = '\n' :: (scriptTag {} ++ "<head></head>".data)) ∧
      (containsSub ("<head></head>".data) ("</head>".data) = false →
        containsSub ("<head></head>".data) ("<body".data) = false →
        out = scriptTag {} ++ "<head></head>".data) :=
  claim_C2_amended {} ⟨true, "published", false, some ("<head></head>".data)⟩
    ("<head></head>".data) rfl rfl rfl rfl (by decide) (by decide)

/-- Claim C6: when both the document URL and the source path are
present (truthy) and the file exists at
`outputRoot/documentUrl/filename`, the resolver returns
`"/" ++ documentUrl-without-trailing-slashes ++ "/" ++ filename`,
regardless of everything else on the filesystem — in particular even if
the same filename also exists elsewhere under the content root. -/
theorem claim_C6 (settings : PelicanSettings) (fs : String → Bool) (rf : String → String)
    (filename csp url : String)
    (hf1 : strStartsWith filename "/" = false)
    (hf2 : strStartsWith filename "http" = false)
    (hu : url ≠ "") (hc : csp ≠ "")
    (hex : fs (pathJoin (pathJoin settings.output_path (rstripSlash url)) filename) = true) :
    resolve_schematic_path settings fs rf filename (some csp) (some url)
      = "/" ++ rstripSlash url ++ "/" ++ filename := by
  unfold resolve_schematic_path
  simp [hf1, hf2, hu, hc, hex]

/-- Witness for `claim_C6`: a filesystem on which only the output copy
exists resolves to the article-URL path. -/
theorem claim_C6_witness :
    resolve_schematic_path {} (fun p => decide (p = "output/blog/post/amp.kicad_sch"))
        (fun p => p) "amp.kicad_sch" (some "content/post/index.md") (some "blog/post/")
      = "/blog/post/amp.kicad_sch" :=
  claim_C6 {} (fun p => decide (p = "output/blog/post/amp.kicad_sch")) (fun p => p)
    "amp.kicad_sch" "content/post/index.md" "blog/post/"
    (by decide) (by decide) (by decide) (by decide) (by decide)

/-- Claim C7: when the file next to the document source exists on disk
but its resolved location is not under the content root, the resolver's
content-root-relative strategy yields nothing: the result is either the
configured-schematics-path URL (when that strategy succeeds) or the
bare filename pass-through — never a URL claiming the file is
content-root-relative.  (`article_url` is absent so that the
content-root strategy is the one exercised.) -/
theorem claim_C7 (settings : PelicanSettings) (fs : String → Bool) (rf : String → String)
    (filename csp : String)
    (hf1 : strStartsWith filename "/" = false)
    (hf2 : strStartsWith filename "http" = false)
    (hc : csp ≠ "")
    (hex : fs (pathJoin (parentDir csp) filename) = true)
    (hesc : relativeTo (rf settings.path) (rf (pathJoin (parentDir csp) filename)) = none) :
    (∃ kp, settings.kicad_schematics_path = some kp ∧ kp ≠ "" ∧
        fs (pathJoin (pathJoin settings.path kp) filename) = true ∧
        resolve_schematic_path settings fs rf filename (some csp) none
          = "/" ++ kp ++ "/" ++ filename) ∨
    resolve_schematic_path settings fs rf filename (some csp) none = filename := by
  have hred : resolve_schematic_path settings fs rf filename (some csp) none
      = (match settings.kicad_schematics_path with
        | some kicad_path =>
          if kicad_path ≠ "" ∧ fs (pathJoin (pathJoin settings.path kicad_path) filename) then
            "/" ++ kicad_path ++ "/" ++ filename
          else filename
        | none => filename) := by
    unfold resolve_schematic_path
    simp [hf1, hf2, hc, hex, hesc]
  rw [hred]
  cases hksp : settings.kicad_schematics_path with
  | none => exact Or.inr rfl
  | some kp =>
    by_cases hkp : kp = ""
    · refine Or.inr ?_
      simp [hkp]
    · by_cases hfs : fs (pathJoin (pathJoin settings.path kp) filename) = true
      · exact Or.inl ⟨kp, rfl, hkp, hfs, by simp [hkp, hfs]⟩
      · refine Or.inr ?_
        simp [hkp, hfs]

/-- Witness for `claim_C7`: a source file in `/ext` (outside the
content root) with the same schematic name also available under the
configured schematics directory resolves to the configured-path URL,
not a content-root-relative one. -/
theorem claim_C7_witness :
    (∃ kp, ({ kicad_schematics_path := some "schematics" } : PelicanSettings).kicad_schematics_path
          = some kp ∧ kp ≠ "" ∧
        (fun p => decide (p = "/ext/amp.kicad_sch" ∨ p = "content/schematics/amp.kicad_sch"))
          (pathJoin (pathJoin ({ kicad_schematics_path := some "schematics" } : PelicanSettings).path kp)
            "amp.kicad_sch") = true ∧
        resolve_schematic_path { kicad_schematics_path := some "schematics" }
          (fun p => decide (p = "/ext/amp.kicad_sch" ∨ p = "content/schematics/amp.kicad_sch"))
          (fun p => if strStartsWith p "/" then p else "/abs/" ++ p)
          "amp.kicad_sch" (some "/ext/doc.md") none
          = "/" ++ kp ++ "/" ++ "amp.kicad_sch") ∨
    resolve_schematic_path { kicad_schematics_path := some "schematics" }
      (fun p => decide (p = "/ext/amp.kicad_sch" ∨ p = "content/schematics/amp.kicad_sch"))
      (fun p => if strStartsWith p "/" then p else "/abs/" ++ p)
      "amp.kicad_sch" (some "/ext/doc.md") none = "amp.kicad_sch" :=
  claim_C7 { kicad_schematics_path := some "schematics" }
    (fun p => decide (p = "/ext/amp.kicad_sch" ∨ p = "content/schematics/amp.kicad_sch"))
    (fun p => if strStartsWith p "/" then p else "/abs/" ++ p)
    "amp.kicad_sch" "/ext/doc.md"
    (by decide) (by decide) (by decide) (by decide) (by decide)

/-- Claim C9: the liquid-tag handler renders a visible diagnostic
comment containing "Invalid" and the raw markup whenever the markup has
no filename token (no non-whitespace run), never raising (the handler
is a total function); with an unterminated quoted parameter it still
extracts the filename and drops the malformed parameter. -/
theorem claim_C9 :
    (∀ markup : List Char, markup.dropWhile isWS = [] →
      kicad_schematic_tag markup
        = "<!-- Invalid kicad_schematic syntax: ".data ++ markup ++ " -->".data) ∧
    kicad_schematic_tag ("f.sch style=\"oops".data)
      = "<kicanvas-embed src=\"/static/schematics/f.sch\"></kicanvas-embed>".data := by
  constructor
  · intro markup h
    simp [kicad_schematic_tag, h]
  · decide

/-- Witness for the hypothesis of `claim_C9`: pure-whitespace markup
yields the diagnostic comment. -/
theorem claim_C9_witness :
    kicad_schematic_tag ("  ".data)
      = "<!-- Invalid kicad_schematic syntax: ".data ++ "  ".data ++ " -->".data :=
  claim_C9.1 ("  ".data) (by decide)

/-!
Section: Canonical Grammar-A matches
-/

theorem matchAFrom_open (r0 : List Char) :
    matchAFrom ('{' :: '{' :: r0) = matchAOpenRest r0 := by
  simp [matchAFrom]

theorem matchAOpenRest_eq (r0 r1 r2 : List Char)
    (h1 : stripCI kwKicadSchematic (skipWS r0) = some r1)
    (h2 : skipWS r1 = '(' :: r2) :
    matchAOpenRest r0 = matchAAlt (skipWS r2) := by
  simp [matchAOpenRest, h1, h2]

theorem matchAAlt_quoted (r3 : List Char) (res : AMatch × List Char)
    (h : matchAQuoted r3 = some res) : matchAAlt r3 = some res := by
  simp [matchAAlt, h]

theorem matchA_quoted_generic (f : List Char) (hne : f ≠ [])
    (hq : ∀ c ∈ f, isQuote c = false) (tail : List Char)
    (st co : Option (List Char)) (htail : matchTail tail = some (st, co, [])) :
    matchAFrom ('{' :: '{' :: ' ' :: ("kicad_schematic(\"".data ++ (f ++ '"' :: tail)))
      = some (⟨f, st, co⟩, []) := by
  have hfe : f.isEmpty = false := by
    cases f with
    | nil => exact absurd rfl hne
    | cons a t => rfl
  have etw : (f ++ '"' :: tail).takeWhile (fun c => !isQuote c) = f :=
    takeWhile_all _ f '"' tail (fun c hc => by simp [hq c hc]) (by decide)
  have edw : (f ++ '"' :: tail).dropWhile (fun c => !isQuote c) = '"' :: tail :=
    dropWhile_all _ f '"' tail (fun c hc => by simp [hq c hc]) (by decide)
  have equoted : matchAQuoted ('"' :: (f ++ '"' :: tail)) = some (⟨f, st, co⟩, []) := by
    simp [matchAQuoted, etw, edw, hfe, htail]
    decide
  have estrip : stripCI kwKicadSchematic
      (skipWS (' ' :: ("kicad_schematic(\"".data ++ (f ++ '"' :: tail))))
      = some ('(' :: '"' :: (f ++ '"' :: tail)) := by
    have eskip : skipWS (' ' :: ("kicad_schematic(\"".data ++ (f ++ '"' :: tail)))
        = "kicad_schematic(\"".data ++ (f ++ '"' :: tail) := rfl
    have e2 : "kicad_schematic(\"".data ++ (f ++ '"' :: tail)
        = "kicad_schematic".data ++ ('(' :: '"' :: (f ++ '"' :: tail)) := by
      have e3 : "kicad_schematic(\"".data = "kicad_schematic".data ++ ['(', '"'] := by decide
      rw [e3]
      simp [List.append_assoc]
    rw [eskip, e2]
    exact stripCI_of_ciword _ _ _ (by unfold CIWord; decide)
  have eskip1 : skipWS ('(' :: '"' :: (f ++ '"' :: tail))
      = '(' :: ('"' :: (f ++ '"' :: tail)) := rfl
  have eskip2 : skipWS ('"' :: (f ++ '"' :: tail)) = '"' :: (f ++ '"' :: tail) := rfl
  rw [matchAFrom_open,
    matchAOpenRest_eq _ ('(' :: '"' :: (f ++ '"' :: tail)) ('"' :: (f ++ '"' :: tail))
      estrip eskip1,
    eskip2]
  exact matchAAlt_quoted _ _ equoted

/-- Counterexample to claim C5 as stated: in
`\x7b\x7b kicad_schematic("a'b") \x7d\x7d` the double-quoted filename
contains a single-quote character; the pattern's quoted group `[^"']+`
cannot cross it, and the bare `\S+` alternative matches instead, so the
extracted filename is the five characters `"a'b"` (quotes included),
not the quoted text `a'b`. -/
theorem claim_C5_counterexample :
    (matchAFrom ("\x7b\x7b kicad_schematic(\"a'b\") \x7d\x7d".data)).map
        (fun p => p.1.filename) = some ("\"a'b\"".data) ∧
    ("\"a'b\"".data : List Char) ≠ "a'b".data :=
  ⟨by decide, by decide⟩

/-- Claim C5 (amended): a quoted Grammar-A filename may contain any
characters other than the two quote characters — including spaces and
non-ASCII — and the parser matches the canonical occurrence and
extracts exactly the quoted text as the filename. -/
theorem claim_C5_amended (f : List Char) (hne : f ≠ [])
    (hq : ∀ c ∈ f, isQuote c = false) :
    matchAFrom (canonQuotedA f) = some (⟨f, none, none⟩, []) := by
  have e0 : canonQuotedA f
      = '{' :: '{' :: ' ' :: ("kicad_schematic(\"".data ++ (f ++ '"' :: (") \x7d\x7d".data))) := by
    unfold canonQuotedA
    have e1 : "\x7b\x7b kicad_schematic(\"".data
        = '{' :: '{' :: ' ' :: "kicad_schematic(\"".data := by decide
    have e2 : "\") \x7d\x7d".data = '"' :: ") \x7d\x7d".data := by decide
    rw [e1, e2]
    simp [List.append_assoc]
  rw [e0]
  exact matchA_quoted_generic f hne hq (") \x7d\x7d".data) none none (by decide)

/-- Witness for `claim_C5_amended`: a quoted filename with spaces and a
non-ASCII character is extracted exactly. -/
theorem claim_C5_amended_witness :
    matchAFrom (canonQuotedA ("my amp ü.kicad_sch".data))
      = some (⟨"my amp ü.kicad_sch".data, none, none⟩, []) :=
  claim_C5_amended ("my amp ü.kicad_sch".data) (by decide) (by decide)

/-- Claim C8: with `style=""` and `controls=""` the template function
substitutes the documented defaults — the element carries
`controls="all"` and `style="width: 100%; height: 600px;"` — while the
equivalent empty-option Grammar-A occurrence renders an element with
neither attribute; both hold for every filename. -/
theorem claim_C8 :
    (∀ (settings : PelicanSettings) (fs : String → Bool) (rf : String → String)
        (ctx : JinjaCtx) (filename : String),
      ∃ src : List Char,
        (kicad_schematic settings fs rf ctx filename "" "").data
          = "<kicanvas-embed src=\"".data ++ src
            ++ "\" controls=\"all\" style=\"width: 100%; height: 600px;\"></kicanvas-embed>".data) ∧
    (∀ f : List Char, f ≠ [] → (∀ c ∈ f, isQuote c = false) →
      matchAFrom (canonEmptyOptsA f) = some (⟨f, some [], some []⟩, []) ∧
      mdReplaceMatch ⟨f, some [], some []⟩
        = "<kicanvas-embed src=\"/static/schematics/".data ++ f
          ++ "\"></kicanvas-embed>".data) := by
  constructor
  · intro settings fs rf ctx filename
    refine ⟨(resolve_schematic_path settings fs rf filename (ctxExtract ctx).1
      (ctxExtract ctx).2).data, ?_⟩
    simp [kicad_schematic, String.data_append]
  · intro f hne hq
    constructor
    · have e0 : canonEmptyOptsA f
          = '{' :: '{' :: ' ' :: ("kicad_schematic(\"".data
            ++ (f ++ '"' :: (", style=\"\", controls=\"\") \x7d\x7d".data))) := by
        unfold canonEmptyOptsA
        have e1 : "\x7b\x7b kicad_schematic(\"".data
            = '{' :: '{' :: ' ' :: "kicad_schematic(\"".data := by decide
        have e2 : "\", style=\"\", controls=\"\") \x7d\x7d".data
            = '"' :: ", style=\"\", controls=\"\") \x7d\x7d".data := by decide
        rw [e1, e2]
        simp [List.append_assoc]
      rw [e0]
      exact matchA_quoted_generic f hne hq (", style=\"\", controls=\"\") \x7d\x7d".data)
        (some []) (some []) (by decide)
    · have emerge : ("\"".data : List Char) ++ "></kicanvas-embed>".data
          = "\"></kicanvas-embed>".data := by decide
      simp only [mdReplaceMatch, renderEmbed, Option.getD_some, List.isEmpty_nil,
        if_true, List.append_nil, List.append_assoc]
      rw [emerge]

/-- Witness for `claim_C8` at a concrete filename and context. -/
theorem claim_C8_witness :
    (∃ src : List Char,
      (kicad_schematic {} (fun _ => false) (fun p => p) {} "t.kicad_sch" "" "").data
        = "<kicanvas-embed src=\"".data ++ src
          ++ "\" controls=\"all\" style=\"width: 100%; height: 600px;\"></kicanvas-embed>".data) ∧
    matchAFrom (canonEmptyOptsA ("t.kicad_sch".data))
        = some (⟨"t.kicad_sch".data, some [], some []⟩, []) ∧
    mdReplaceMatch ⟨"t.kicad_sch".data, some [], some []⟩
        = "<kicanvas-embed src=\"/static/schematics/".data ++ "t.kicad_sch".data
          ++ "\"></kicanvas-embed>".data :=
  ⟨claim_C8.1 {} (fun _ => false) (fun p => p) {} "t.kicad_sch",
    (claim_C8.2 ("t.kicad_sch".data) (by decide) (by decide)).1,
    (claim_C8.2 ("t.kicad_sch".data) (by decide) (by decide)).2⟩
